import Mathlib

/-!
# Verification of the auth / session subsystem of the Community Travel Platform backend

Shallow embedding of `main.py` (the`serialize_doc` / `hash_password` helpers and
the `register`, `login`, `get_current_user`, `me` handlers) together with the
pieces of the Python standard library they call (`hashlib.sha256`,
`secrets.token_hex`, `secrets.token_urlsafe`, UTF-8 encoding, `str.split`,
`str.lower`).

Modelling conventions:
* machine words are `Nat` reduced with `% 2^32` where the algorithm wraps;
* bytes are `Nat` (meaningful when `< 256`);
* MongoDB documents for `serialize_doc` are association lists
  `List (String × BVal)` (a Python dict: keys unique, insertion-ordered);
* `datetime` values are `Int` timestamps; `timedelta(days=7)` is `days 7`;
  `datetime.isoformat` is modelled as an injective textual rendering of the
  timestamp (the claims depend only on a datetime becoming a string);
* each call to `datetime.utcnow()` is a read of an abstract clock
  `clock : Nat → Int`, consumed in source order (`clock 0` is the first call in
  the handler body, `clock 1` the second, ...);
* randomness (`secrets.token_hex(16)` / `secrets.token_urlsafe(32)`) is
  modelled by passing in the freshly drawn random bytes as an argument;
* MongoDB `ObjectId`s are `Nat` identifiers assigned by the store
  (`DB.nextId`); Python's `str(object_id)` is `toString`; the
  `ObjectId(session["user_id"])` round-trip in `get_current_user` is modelled
  by comparing `toString u.id` with the stored string.
-/

/-! ## SHA-256 (`hashlib.sha256`), on lists of bytes -/

/-- Reduce modulo `2^32` (all SHA-256 word arithmetic wraps at 32 bits). -/
def w32 (n : Nat) : Nat := n % 4294967296

/-- Right rotation of a 32-bit word by `n` places. -/
def rotr (n x : Nat) : Nat := w32 ((x >>> n) ||| (x <<< (32 - n)))

/-- SHA-256 small sigma 0. -/
def sSig0 (x : Nat) : Nat := rotr 7 x ^^^ rotr 18 x ^^^ (x >>> 3)

/-- SHA-256 small sigma 1. -/
def sSig1 (x : Nat) : Nat := rotr 17 x ^^^ rotr 19 x ^^^ (x >>> 10)

/-- SHA-256 big sigma 0. -/
def bSig0 (x : Nat) : Nat := rotr 2 x ^^^ rotr 13 x ^^^ rotr 22 x

/-- SHA-256 big sigma 1. -/
def bSig1 (x : Nat) : Nat := rotr 6 x ^^^ rotr 11 x ^^^ rotr 25 x

/-- The 64 SHA-256 round constants. -/
def K256 : List Nat :=
  [1116352408, 1899447441, 3049323471, 3921009573, 961987163,
   1508970993, 2453635748, 2870763221, 3624381080, 310598401,
   607225278, 1426881987, 1925078388, 2162078206, 2614888103,
   3248222580, 3835390401, 4022224774, 264347078, 604807628,
   770255983, 1249150122, 1555081692, 1996064986, 2554220882,
   2821834349, 2952996808, 3210313671, 3336571891, 3584528711,
   113926993, 338241895, 666307205, 773529912, 1294757372,
   1396182291, 1695183700, 1986661051, 2177026350, 2456956037,
   2730485921, 2820302411, 3259730800, 3345764771, 3516065817,
   3600352804, 4094571909, 275423344, 430227734, 506948616,
   659060556, 883997877, 958139571, 1322822218, 1537002063,
   1747873779, 1955562222, 2024104815, 2227730452, 2361852424,
   2428436474, 2756734187, 3204031479, 3329325298]

/-- The SHA-256 initial hash value. -/
def initH : List Nat :=
  [1779033703, 3144134277, 1013904242, 2773480762, 1359893119,
   2600822924, 528734635, 1541459225]

/-- `k` bytes of `n`, big-endian. -/
def toBytesBE (k n : Nat) : List Nat :=
  match k with
  | 0 => []
  | k + 1 => toBytesBE k (n / 256) ++ [n % 256]

/-- Pack bytes into 32-bit big-endian words (4 bytes per word). -/
def bytesToWords : List Nat → List Nat
  | b1 :: b2 :: b3 :: b4 :: rest =>
      (b1 * 16777216 + b2 * 65536 + b3 * 256 + b4) :: bytesToWords rest
  | _ => []

/-- One step of the message-schedule extension: append word `w[n]` computed
from `w[n-16], w[n-15], w[n-7], w[n-2]`. -/
def schedStep (ws : List Nat) : List Nat :=
  let n := ws.length
  ws ++ [w32 (ws.getD (n - 16) 0 + sSig0 (ws.getD (n - 15) 0) +
              ws.getD (n - 7) 0 + sSig1 (ws.getD (n - 2) 0))]

/-- Extend the 16 block words to the 64-entry message schedule. -/
def schedule (ws : List Nat) : List Nat := Nat.iterate schedStep 48 ws

/-- One SHA-256 compression round on the state `[a,b,c,d,e,f,g,h]`. -/
def sha256round (st : List Nat) (k w : Nat) : List Nat :=
  match st with
  | [a, b, c, d, e, f, g, h] =>
    let t1 := w32 (h + bSig1 e + ((e &&& f) ^^^ ((e ^^^ 4294967295) &&& g)) + k + w)
    let t2 := w32 (bSig0 a + ((a &&& b) ^^^ (a &&& c) ^^^ (b &&& c)))
    [w32 (t1 + t2), a, b, c, w32 (d + t1), e, f, g]
  | other => other

/-- Compress one 64-byte block into the running hash (8 words). -/
def compressBlock (H : List Nat) (block : List Nat) : List Nat :=
  let ws := schedule (bytesToWords block)
  let st := (K256.zip ws).foldl (fun s kw => sha256round s kw.1 kw.2) H
  (H.zip st).map fun p => w32 (p.1 + p.2)

/-- Split a byte list into `n` consecutive 64-byte chunks. -/
def chunks64n : Nat → List Nat → List (List Nat)
  | 0, _ => []
  | n + 1, l => l.take 64 :: chunks64n n (l.drop 64)

/-- Split a byte list into 64-byte chunks (the padded message length is always
a multiple of 64). -/
def chunks64 (l : List Nat) : List (List Nat) := chunks64n (l.length / 64) l

/-- SHA-256 padding: `0x80`, zeros to 56 mod 64, then the bit length as 8
big-endian bytes. -/
def sha256pad (msg : List Nat) : List Nat :=
  msg ++ 128 :: List.replicate ((119 - msg.length % 64) % 64) 0
      ++ toBytesBE 8 (8 * msg.length)

/-- SHA-256 of a byte list, as the 32 digest bytes. -/
def sha256bytes (msg : List Nat) : List Nat :=
  ((chunks64 (sha256pad msg)).foldl compressBlock initH).flatMap (toBytesBE 4)

/-! ## Hex and base64url encodings (`secrets.token_hex`, `secrets.token_urlsafe`) -/

/-- Lowercase hex digit for `n < 16`. -/
def hexChar (n : Nat) : Char :=
  if n < 10 then Char.ofNat (48 + n) else Char.ofNat (87 + n)

/-- Two lowercase hex digits of a byte. -/
def byteHex (b : Nat) : List Char := [hexChar (b / 16), hexChar (b % 16)]

/-- `secrets.token_hex` applied to the given freshly drawn random bytes:
the bytes rendered as lowercase hex, two digits per byte. -/
def token_hex (bytes : List Nat) : String := ⟨(bytes.map byteHex).flatten⟩

/-- Hex rendering of a byte list (used for digests). -/
def bytesToHex (bytes : List Nat) : String := ⟨(bytes.map byteHex).flatten⟩

/-- The base64url character for a 6-bit value. -/
def b64urlChar (n : Nat) : Char :=
  if n < 26 then Char.ofNat (65 + n)
  else if n < 52 then Char.ofNat (97 + (n - 26))
  else if n < 62 then Char.ofNat (48 + (n - 52))
  else if n = 62 then '-' else '_'

/-- Base64url encoding of a byte list, unpadded (as `base64.urlsafe_b64encode`
followed by stripping `=`, which is what `secrets.token_urlsafe` produces). -/
def b64urlEncode : List Nat → List Char
  | b1 :: b2 :: b3 :: rest =>
      b64urlChar (b1 / 4) :: b64urlChar (b1 % 4 * 16 + b2 / 16) ::
      b64urlChar (b2 % 16 * 4 + b3 / 64) :: b64urlChar (b3 % 64) :: b64urlEncode rest
  | [b1, b2] => [b64urlChar (b1 / 4), b64urlChar (b1 % 4 * 16 + b2 / 16), b64urlChar (b2 % 16 * 4)]
  | [b1] => [b64urlChar (b1 / 4), b64urlChar (b1 % 4 * 16)]
  | [] => []

/-- `secrets.token_urlsafe` applied to the given freshly drawn random bytes. -/
def token_urlsafe (bytes : List Nat) : String := ⟨b64urlEncode bytes⟩

/-! ## UTF-8 (`str.encode`) and the `hash_password` helper -/

/-- UTF-8 bytes of one character. -/
def utf8Bytes (c : Char) : List Nat :=
  let n := c.toNat
  if n < 128 then [n]
  else if n < 2048 then [192 + n / 64, 128 + n % 64]
  else if n < 65536 then [224 + n / 4096, 128 + n / 64 % 64, 128 + n % 64]
  else [240 + n / 262144, 128 + n / 4096 % 64, 128 + n / 64 % 64, 128 + n % 64]

/-- UTF-8 bytes of a string (Python `s.encode()`). -/
def strBytes (s : String) : List Nat := s.data.flatMap utf8Bytes

/-- `hashlib.sha256(s.encode()).hexdigest()`. -/
def sha256hex (s : String) : String := bytesToHex (sha256bytes (strBytes s))

/-- `hash_password(password, salt)` from `main.py`: `salt = salt or
secrets.token_hex(16)` (so `None` *and the empty string* trigger generation of
a fresh salt from 16 random bytes, passed here as `freshBytes`), then
`hashed = sha256((salt + password).encode()).hexdigest()`; returns
`(hashed, salt)`. -/
def hash_password (password : String) (salt : Option String) (freshBytes : List Nat) :
    String × String :=
  let s := match salt with
    | some s => if s = "" then token_hex freshBytes else s
    | none => token_hex freshBytes
  (sha256hex (s ++ password), s)

example : sha256hex "" = "e3b0c44298fc1c149afbf4c8996fb92427ae41e4649b934ca495991b7852b855" := by
  decide

example : sha256hex "abc" = "ba7816bf8f01cfea414140de5dae2223b00361a396177a9cb410ff61f20015ad" := by
  decide

/-! ## `serialize_doc`: MongoDB documents as association lists -/

/-- A value stored in a MongoDB document, as far as `serialize_doc`
distinguishes them: an `ObjectId`, a `datetime`, or any other
JSON-serializable value (string, int, null). -/
inductive BVal where
  | vOid (n : Nat)
  | vDt (t : Int)
  | vStr (s : String)
  | vInt (n : Int)
  | vNull
  deriving DecidableEq, Repr

/-- A MongoDB document: a Python dict, i.e. an insertion-ordered association
list with (by the dict invariant) pairwise-distinct keys. -/
abbrev Doc := List (String × BVal)

/-- `datetime.isoformat()`: the ISO-8601 text of a timestamp. Timestamps are
modelled as integers, so this is modelled as an injective textual rendering. -/
def isoformat (t : Int) : String := toString t

/-- Python `str(v)` on a stored value (used on the `_id` field). -/
def pyStr : BVal → String
  | .vOid n => toString n
  | .vDt t => isoformat t
  | .vStr s => s
  | .vInt n => toString n
  | .vNull => "None"

/-- `d.pop(k)`: the removed value (if any) and the dict without that key,
order of the remaining entries preserved. -/
def popKey (k : String) : Doc → Option BVal × Doc
  | [] => (none, [])
  | (k', v) :: rest =>
      if k' = k then (some v, rest)
      else ((popKey k rest).1, (k', v) :: (popKey k rest).2)

/-- `d[k] = v`: update in place if the key exists, else append at the end. -/
def setKey (k : String) (v : BVal) : Doc → Doc
  | [] => [(k, v)]
  | (k', v') :: rest => if k' = k then (k, v) :: rest else (k', v') :: setKey k v rest

/-- The body of `serialize_doc`'s loop: a `datetime` value becomes its
ISO-8601 text, anything else is untouched. -/
def isoVal : BVal → BVal
  | .vDt t => .vStr (isoformat t)
  | v => v

/-- `serialize_doc` from `main.py`: empty (falsy) documents are returned
unchanged; otherwise `_id` (if present) is popped and re-inserted as the
string field `id`, and every `datetime` value is converted to ISO-8601 text. -/
def serialize_doc (doc : Doc) : Doc :=
  if doc = [] then doc
  else
    let p := popKey "_id" doc
    let d := match p.1 with
      | some v => setKey "id" (.vStr (pyStr v)) p.2
      | none => doc
    d.map fun kv => (kv.1, isoVal kv.2)

/-- `serialize_doc` at the `Optional[dict]` boundary: `None` is falsy, so it
comes back unchanged. -/
def serialize_doc_opt : Option Doc → Option Doc
  | none => none
  | some d => some (serialize_doc d)

/-! ## Data model of the auth subsystem -/

/-- A document of the `user` collection, as written by `register`. -/
structure UserDoc where
  id : Nat
  name : String
  email : String
  password_hash : String
  password_salt : String
  avatar_url : Option String
  created_at : Int
  updated_at : Int
  deriving DecidableEq, Repr

/-- A document of the `session` collection, as written by `register` and
`login`. `user_id` holds `str(user_id)` as in the source. -/
structure SessionDoc where
  user_id : String
  token : String
  created_at : Int
  expires_at : Int
  deriving DecidableEq, Repr

/-- The shared document store: the two collections the auth subsystem touches,
plus the store's next fresh `ObjectId`. -/
structure DB where
  users : List UserDoc
  sessions : List SessionDoc
  nextId : Nat
  deriving DecidableEq, Repr

/-- The `UserPublic` response schema: exactly the public projection fields. -/
structure UserPublic where
  id : String
  name : String
  email : String
  avatar_url : Option String
  deriving DecidableEq, Repr

/-- The `AuthResponse` schema returned by `register` and `login`. -/
structure AuthResponse where
  token : String
  user : UserPublic
  deriving DecidableEq, Repr

/-- An `HTTPException(status_code, detail)`. -/
structure HTTPError where
  status : Nat
  detail : String
  deriving DecidableEq, Repr

/-- `timedelta(days=n)`, with timestamps in seconds. -/
def days (n : Int) : Int := n * 86400

/-- The public projection used by the handlers: id as string, name, email,
avatar reference — and nothing else. -/
def toPublic (u : UserDoc) : UserPublic :=
  ⟨toString u.id, u.name, u.email, u.avatar_url⟩

/-- `find_one({"email": email})` on the `user` collection. -/
def findUserByEmail (db : DB) (email : String) : Option UserDoc :=
  db.users.find? fun u => u.email == email

/-- `find_one({"token": token})` on the `session` collection. -/
def findSessionByToken (db : DB) (token : String) : Option SessionDoc :=
  db.sessions.find? fun s => s.token == token

/-- `find_one({"_id": ObjectId(uid)})` on the `user` collection, with the
`str`/`ObjectId` round-trip modelled as comparison of the rendered id. -/
def findUserById (db : DB) (uid : String) : Option UserDoc :=
  db.users.find? fun u => toString u.id == uid

/-! ## The handlers -/

/-- `register` from `main.py`. `saltBytes` are the 16 random bytes drawn by
`secrets.token_hex(16)` inside `hash_password`, `tokenBytes` the 32 random
bytes drawn by `secrets.token_urlsafe(32)`, and `clock n` the value of the
`n`-th `datetime.utcnow()` call of the handler body (user `created_at`,
user `updated_at`, session `created_at`, session `expires_at`, in source
order). Returns the HTTP outcome and the store after the request. -/
def register (db : DB) (name email password : String)
    (saltBytes tokenBytes : List Nat) (clock : Nat → Int) :
    Except HTTPError AuthResponse × DB :=
  match findUserByEmail db email with
  | some _ => (.error ⟨400, "Email already registered"⟩, db)
  | none =>
    let hs := hash_password password none saltBytes
    let user : UserDoc :=
      { id := db.nextId, name := name, email := email,
        password_hash := hs.1, password_salt := hs.2,
        avatar_url := none, created_at := clock 0, updated_at := clock 1 }
    let token := token_urlsafe tokenBytes
    let sess : SessionDoc :=
      { user_id := toString user.id, token := token,
        created_at := clock 2, expires_at := clock 3 + days 7 }
    (.ok ⟨token, ⟨toString user.id, name, email, none⟩⟩,
     { users := db.users ++ [user], sessions := db.sessions ++ [sess],
       nextId := db.nextId + 1 })

/-- `login` from `main.py`. `loginFresh` are the random bytes
`secrets.token_hex(16)` would draw inside `hash_password` (consumed only if
the stored salt is falsy), `tokenBytes` the 32 random bytes of
`secrets.token_urlsafe(32)`, `clock n` the `n`-th `datetime.utcnow()` call
(session `created_at` then session `expires_at`). -/
def login (db : DB) (email password : String)
    (loginFresh tokenBytes : List Nat) (clock : Nat → Int) :
    Except HTTPError AuthResponse × DB :=
  match findUserByEmail db email with
  | none => (.error ⟨401, "Invalid credentials"⟩, db)
  | some user =>
    let hs := hash_password password (some user.password_salt) loginFresh
    if hs.1 ≠ user.password_hash then (.error ⟨401, "Invalid credentials"⟩, db)
    else
      let token := token_urlsafe tokenBytes
      let sess : SessionDoc :=
        { user_id := toString user.id, token := token,
          created_at := clock 0, expires_at := clock 1 + days 7 }
      (.ok ⟨token, ⟨toString user.id, user.name, user.email, user.avatar_url⟩⟩,
       { db with sessions := db.sessions ++ [sess] })

/-- How many times `login`'s control flow reaches a `hash_password` call
(the digest computation), mirroring the source: the call sits after the
user lookup, so it runs exactly when a user with the email was found. -/
def loginHashCount (db : DB) (email : String) : Nat :=
  match findUserByEmail db email with
  | none => 0
  | some _ => 1

/-- Python `authorization.split(" ", 1)` unpacked into two parts: split at the
first space; `None` when there is no space (the `ValueError` branch). -/
def splitFirstSpaceAux : List Char → Option (List Char × List Char)
  | [] => none
  | c :: rest =>
      if c = ' ' then some ([], rest)
      else
        match splitFirstSpaceAux rest with
        | none => none
        | some (l, r) => some (c :: l, r)

/-- `scheme, token = authorization.split(" ", 1)`, as an `Option`. -/
def splitFirstSpace (s : String) : Option (String × String) :=
  match splitFirstSpaceAux s.data with
  | none => none
  | some (l, r) => some (⟨l⟩, ⟨r⟩)

/-- ASCII `str.lower` on one character. -/
def lowerChar (c : Char) : Char :=
  if 'A' ≤ c ∧ c ≤ 'Z' then Char.ofNat (c.toNat + 32) else c

/-- ASCII `str.lower` (schemes compared here are ASCII). -/
def lowerStr (s : String) : String := ⟨s.data.map lowerChar⟩

/-- `get_current_user` from `main.py`: parse the `Authorization` header,
look the session up by token, then the user by the session's `user_id`.
Note the source performs no comparison against `expires_at` and reads no
clock: session lookup is by token only. -/
def get_current_user (db : DB) (authorization : Option String) :
    Except HTTPError UserDoc :=
  match authorization with
  | none => .error ⟨401, "Missing Authorization header"⟩
  | some a =>
    if a = "" then .error ⟨401, "Missing Authorization header"⟩
    else
      match splitFirstSpace a with
      | none => .error ⟨401, "Invalid Authorization header"⟩
      | some st =>
        if lowerStr st.1 ≠ "bearer" then .error ⟨401, "Invalid auth scheme"⟩
        else
          match findSessionByToken db st.2 with
          | none => .error ⟨401, "Invalid token"⟩
          | some sess =>
            match findUserById db sess.user_id with
            | none => .error ⟨401, "User not found for token"⟩
            | some user => .ok user

/-- The `/auth/me` handler: resolve the user, return the public projection. -/
def me (db : DB) (authorization : Option String) : Except HTTPError UserPublic :=
  match get_current_user db authorization with
  | .error e => .error e
  | .ok user => .ok ⟨toString user.id, user.name, user.email, user.avatar_url⟩

/-! ## Concrete fixtures used by witnesses and counterexamples -/

/-- The empty store. -/
def dbEmpty : DB := ⟨[], [], 0⟩

/-- A registered user record with inert credential fields. -/
def exUser : UserDoc := ⟨0, "Ana", "ana@example.com", "nothash", "ss", none, 0, 0⟩

/-- A session for `exUser` whose validity window is creation time `0` to
`days 7`, i.e. long expired at any current time past `604800`. -/
def exSession : SessionDoc := ⟨"0", "tok", 0, days 7⟩

/-- A store holding `exUser` and the (expired) `exSession`. -/
def dbWithSession : DB := ⟨[exUser], [exSession], 1⟩

/-- A session whose `user_id` matches no user record. -/
def orphanSession : SessionDoc := ⟨"99", "orph", 0, days 7⟩

/-- A store holding only the orphan session. -/
def dbOrphan : DB := ⟨[], [orphanSession], 0⟩

/-- Concrete 16 fresh random bytes for `secrets.token_hex(16)`. -/
def salt16 : List Nat := List.range 16

/-- Concrete 32 fresh random bytes for `secrets.token_urlsafe(32)`. -/
def tok32 : List Nat := List.range 32

/-! ## Helper lemmas on header parsing and lookups -/

theorem bearer_data (t : String) :
    ("Bearer " ++ t).data = 'B' :: 'e' :: 'a' :: 'r' :: 'e' :: 'r' :: ' ' :: t.data := by
  rw [String.data_append]; rfl

theorem splitFirstSpaceAux_bearer (l : List Char) :
    splitFirstSpaceAux ('B' :: 'e' :: 'a' :: 'r' :: 'e' :: 'r' :: ' ' :: l) =
      some (['B', 'e', 'a', 'r', 'e', 'r'], l) := by
  simp [splitFirstSpaceAux]

theorem splitFirstSpace_bearer (t : String) :
    splitFirstSpace ("Bearer " ++ t) = some ("Bearer", t) := by
  unfold splitFirstSpace
  rw [bearer_data, splitFirstSpaceAux_bearer]

theorem bearer_append_ne_empty (t : String) : "Bearer " ++ t ≠ "" := by
  intro h
  have h2 := congrArg String.data h
  rw [bearer_data] at h2
  simp at h2

theorem lowerStr_bearer : lowerStr "Bearer" = "bearer" := by decide

/-- `register` on a fresh email, written out: the ok-response and the store
with exactly one new user and one new session appended. -/
theorem register_fresh_eq (db : DB) (name email password : String)
    (saltB tokB : List Nat) (clock : Nat → Int)
    (hf : findUserByEmail db email = none) :
    register db name email password saltB tokB clock =
      (.ok ⟨token_urlsafe tokB, ⟨toString db.nextId, name, email, none⟩⟩,
       ⟨db.users ++ [⟨db.nextId, name, email, (hash_password password none saltB).1,
          (hash_password password none saltB).2, none, clock 0, clock 1⟩],
        db.sessions ++ [⟨toString db.nextId, token_urlsafe tokB, clock 2, clock 3 + days 7⟩],
        db.nextId + 1⟩) := by
  unfold register
  rw [hf]

/-- Resolution of a well-formed bearer header, given the two lookups. -/
theorem get_current_user_bearer (db : DB) (t : String) (sess : SessionDoc) (u : UserDoc)
    (hsess : findSessionByToken db t = some sess)
    (huser : findUserById db sess.user_id = some u) :
    get_current_user db (some ("Bearer " ++ t)) = .ok u := by
  simp only [get_current_user, if_neg (bearer_append_ne_empty t), splitFirstSpace_bearer,
    lowerStr_bearer, ne_eq, not_true_eq_false, if_false, hsess, huser]

/-! ## Claim theorems -/

/-- **C10.** `serialize_doc` is total at the API boundary even on degenerate
input: applied to `None` (the `Optional[dict]` boundary) or to an empty
record, it returns its argument unchanged instead of raising — both fall
into the `if not doc: return doc` branch. -/
theorem serialize_doc_total_on_degenerate :
    serialize_doc_opt none = none ∧ serialize_doc ([] : Doc) = [] :=
  ⟨rfl, rfl⟩

/-- **C1** (code bug exhibit). The claim says identity resolution returns
`Invalid` whenever the current time is at or past the session's expiry. The
source's `get_current_user` looks the session up by token only: it never
reads `expires_at` (and never reads a clock at all), so a session whose
expiry (`days 7 = 604800`) is long past — here against a current time of
`10^9` — still resolves to its user instead of being rejected. -/
theorem expired_session_still_resolves :
    exSession.expires_at < (1000000000 : Int) ∧
    findSessionByToken dbWithSession "tok" = some exSession ∧
    get_current_user dbWithSession (some "Bearer tok") = .ok exUser := by
  refine ⟨by decide, by decide, by rfl⟩

/-- **C4.** The resolver's error taxonomy: `MissingCredential` when the
header is absent, `MalformedCredential` when the value cannot be split into
scheme and token, `UnsupportedScheme` when the scheme lowercased is not
`"bearer"`, `InvalidToken` when no session carries the token (which is how
`"Bearer "`'s empty token fails), `UserNotFound` when the session's user id
matches no user record — and every failure carries status 401. -/
theorem resolver_error_taxonomy (db : DB) :
    get_current_user db none = .error ⟨401, "Missing Authorization header"⟩ ∧
    (∀ a : String, a ≠ "" → splitFirstSpace a = none →
      get_current_user db (some a) = .error ⟨401, "Invalid Authorization header"⟩) ∧
    (∀ a sch tok, a ≠ "" → splitFirstSpace a = some (sch, tok) →
      lowerStr sch ≠ "bearer" →
      get_current_user db (some a) = .error ⟨401, "Invalid auth scheme"⟩) ∧
    (∀ a sch tok, a ≠ "" → splitFirstSpace a = some (sch, tok) →
      lowerStr sch = "bearer" → findSessionByToken db tok = none →
      get_current_user db (some a) = .error ⟨401, "Invalid token"⟩) ∧
    (∀ a sch tok sess, a ≠ "" → splitFirstSpace a = some (sch, tok) →
      lowerStr sch = "bearer" → findSessionByToken db tok = some sess →
      findUserById db sess.user_id = none →
      get_current_user db (some a) = .error ⟨401, "User not found for token"⟩) ∧
    (∀ auth e, get_current_user db auth = .error e → e.status = 401) := by
  refine ⟨rfl, ?_, ?_, ?_, ?_, ?_⟩
  · intro a ha hs
    simp [get_current_user, ha, hs]
  · intro a sch tok ha hs hb
    simp [get_current_user, ha, hs, hb]
  · intro a sch tok ha hs hb hf
    simp [get_current_user, ha, hs, hb, hf]
  · intro a sch tok sess ha hs hb hf hu
    simp [get_current_user, ha, hs, hb, hf, hu]
  · intro auth e h
    cases auth with
    | none => cases h; rfl
    | some a =>
      unfold get_current_user at h
      repeat' split at h
      any_goals cases h
      all_goals rfl

/-- Witness for C4, exercising each branch of `resolver_error_taxonomy` at a
concrete store and header (including the spec's three examples: no header,
`"Token abc"`, `"Bearer "`). -/
theorem resolver_error_taxonomy_witness :
    get_current_user dbOrphan none = .error ⟨401, "Missing Authorization header"⟩ ∧
    get_current_user dbOrphan (some "nospace") = .error ⟨401, "Invalid Authorization header"⟩ ∧
    get_current_user dbOrphan (some "Token abc") = .error ⟨401, "Invalid auth scheme"⟩ ∧
    get_current_user dbOrphan (some "Bearer ") = .error ⟨401, "Invalid token"⟩ ∧
    get_current_user dbOrphan (some "Bearer orph") = .error ⟨401, "User not found for token"⟩ ∧
    (401 : Nat) = 401 := by
  obtain ⟨h1, h2, h3, h4, h5, h6⟩ := resolver_error_taxonomy dbOrphan
  refine ⟨h1, ?_, ?_, ?_, ?_, ?_⟩
  · exact h2 "nospace" (by decide) (by decide)
  · exact h3 "Token abc" "Token" "abc" (by decide) (by decide) (by decide)
  · exact h4 "Bearer " "Bearer" "" (by decide) (by decide) (by decide) (by decide)
  · exact h5 "Bearer orph" "Bearer" "orph" orphanSession (by decide) (by decide)
      (by decide) (by decide) (by decide)
  · exact h6 none ⟨401, "Missing Authorization header"⟩ h1

/-- **C7.** Registering an email that an existing user already holds fails
with status 400 and leaves the store untouched (no new user, no new session,
the first registration's session intact); and `register` preserves the
invariant that no two user records share an email. -/
theorem register_duplicate_email_rejected (db : DB) (name email password : String)
    (saltB tokB : List Nat) (clock : Nat → Int) :
    ((∃ u ∈ db.users, u.email = email) →
      register db name email password saltB tokB clock =
        (.error ⟨400, "Email already registered"⟩, db)) ∧
    ((db.users.map UserDoc.email).Nodup →
      (((register db name email password saltB tokB clock).2.users.map UserDoc.email)).Nodup) := by
  constructor
  · rintro ⟨u, hu, he⟩
    have hfind : (findUserByEmail db email).isSome := by
      cases hf : findUserByEmail db email with
      | some v => rfl
      | none =>
        exact absurd (by simp [he]) (List.find?_eq_none.mp hf u hu)
    unfold register
    cases hf : findUserByEmail db email with
    | some v => rfl
    | none => rw [hf] at hfind; cases hfind
  · intro hnd
    unfold register
    cases hf : findUserByEmail db email with
    | some v => exact hnd
    | none =>
      have hnotin : email ∉ db.users.map UserDoc.email := by
        intro hm
        obtain ⟨u, hu, he⟩ := List.mem_map.mp hm
        exact List.find?_eq_none.mp hf u hu (by simp [he])
      simp only [List.map_append, List.map_cons, List.map_nil]
      refine List.nodup_append.mpr ⟨hnd, List.nodup_singleton _, ?_⟩
      intro a ha hb
      rw [List.mem_singleton] at hb
      subst hb
      exact hnotin ha

/-- Witness for C7: a second registration of `exUser`'s email against
`dbWithSession` is rejected with the store unchanged, and the email
uniqueness invariant is preserved. -/
theorem register_duplicate_email_rejected_witness :
    register dbWithSession "Eve" "ana@example.com" "pw2" salt16 tok32 (fun _ => 5) =
      (.error ⟨400, "Email already registered"⟩, dbWithSession) ∧
    ((register dbWithSession "Eve" "ana@example.com" "pw2" salt16 tok32
        (fun _ => 5)).2.users.map UserDoc.email).Nodup := by
  obtain ⟨h1, h2⟩ :=
    register_duplicate_email_rejected dbWithSession "Eve" "ana@example.com" "pw2"
      salt16 tok32 (fun _ => 5)
  exact ⟨h1 ⟨exUser, by decide, rfl⟩, h2 (by decide)⟩

/-- **C3.** `login` fails with the single `401 "Invalid credentials"` outcome
exactly when either no user record carries the email, or the first user found
by email has a stored digest different from the SHA-256 digest recomputed
from its stored salt and the supplied password; and the digest computation
(`hash_password`) runs only on the found-user path — zero times when the
email is absent, once when a user is found. The hypothesis is the invariant
`register` establishes: stored salts are non-empty (Python's `salt or ...`
would regenerate a falsy salt). -/
theorem login_invalid_credentials_iff (db : DB) (email password : String)
    (loginFresh tokenBytes : List Nat) (clock : Nat → Int)
    (hsalt : ∀ u ∈ db.users, u.password_salt ≠ "") :
    ((login db email password loginFresh tokenBytes clock).1 =
        .error ⟨401, "Invalid credentials"⟩ ↔
      (findUserByEmail db email = none ∨
        ∃ u, findUserByEmail db email = some u ∧
          sha256hex (u.password_salt ++ password) ≠ u.password_hash)) ∧
    loginHashCount db email =
      (if (findUserByEmail db email).isSome then 1 else 0) := by
  constructor
  · unfold login
    cases hf : findUserByEmail db email with
    | none => simp
    | some u =>
      have hu : u ∈ db.users := List.mem_of_find?_eq_some hf
      have hs : u.password_salt ≠ "" := hsalt u hu
      simp only [hash_password, if_neg hs]
      by_cases hd : sha256hex (u.password_salt ++ password) = u.password_hash
      · simp [hd]
      · simp only [ne_eq, hd, not_false_eq_true, if_pos, if_true]
        constructor
        · intro _
          exact Or.inr ⟨u, rfl, hd⟩
        · intro _
          trivial
  · unfold loginHashCount
    cases hf : findUserByEmail db email with
    | none => simp
    | some u => simp

/-- Witness for C3: against the store holding `exUser` (stored digest
`"nothash"`), a wrong password fails with `401 "Invalid credentials"` and the
digest was computed exactly once. -/
theorem login_invalid_credentials_iff_witness :
    (login dbWithSession "ana@example.com" "wrongpw" [] tok32 (fun n => n)).1 =
      .error ⟨401, "Invalid credentials"⟩ ∧
    loginHashCount dbWithSession "ana@example.com" = 1 := by
  obtain ⟨hiff, hcount⟩ :=
    login_invalid_credentials_iff dbWithSession "ana@example.com" "wrongpw" [] tok32
      (fun n => n) (by decide)
  refine ⟨hiff.mpr (Or.inr ⟨exUser, by rfl, by decide⟩), ?_⟩
  rw [hcount]
  rfl

/-- **C2.** For a fresh email (and store-assigned fresh token and id),
`register` succeeds with a token, and resolving `"Bearer <that token>"`
against the resulting store yields a user whose email is the registered
email. -/
theorem register_then_resolve (db : DB) (name email password : String)
    (saltB tokB : List Nat) (clock : Nat → Int)
    (h1 : ∀ u ∈ db.users, u.email ≠ email)
    (h2 : ∀ s ∈ db.sessions, s.token ≠ token_urlsafe tokB)
    (h3 : ∀ u ∈ db.users, toString u.id ≠ toString db.nextId) :
    match register db name email password saltB tokB clock with
    | (.ok resp, db2) =>
        resp.user.email = email ∧
        (match get_current_user db2 (some ("Bearer " ++ resp.token)) with
         | .ok u => u.email = email
         | .error _ => False)
    | (.error _, _) => False := by
  have hf : findUserByEmail db email = none :=
    List.find?_eq_none.mpr fun u hu => by simp [h1 u hu]
  rw [register_fresh_eq db name email password saltB tokB clock hf]
  refine ⟨rfl, ?_⟩
  have hsess : findSessionByToken
      ⟨db.users ++ [⟨db.nextId, name, email,
          (hash_password password none saltB).1, (hash_password password none saltB).2,
          none, clock 0, clock 1⟩],
        db.sessions ++ [⟨toString db.nextId, token_urlsafe tokB, clock 2, clock 3 + days 7⟩],
        db.nextId + 1⟩
      (token_urlsafe tokB) =
      some ⟨toString db.nextId, token_urlsafe tokB, clock 2, clock 3 + days 7⟩ := by
    unfold findSessionByToken
    rw [List.find?_append, List.find?_eq_none.mpr fun s hs => by simp [h2 s hs]]
    simp
  have huser : findUserById
      ⟨db.users ++ [⟨db.nextId, name, email,
          (hash_password password none saltB).1, (hash_password password none saltB).2,
          none, clock 0, clock 1⟩],
        db.sessions ++ [⟨toString db.nextId, token_urlsafe tokB, clock 2, clock 3 + days 7⟩],
        db.nextId + 1⟩
      (toString db.nextId) =
      some ⟨db.nextId, name, email,
        (hash_password password none saltB).1, (hash_password password none saltB).2,
        none, clock 0, clock 1⟩ := by
    unfold findUserById
    rw [List.find?_append, List.find?_eq_none.mpr fun u hu => by simp [h3 u hu]]
    simp
  rw [get_current_user_bearer _ _ _ _ hsess huser]

/-- Witness for C2: registering `("Ana", "ana@example.com", "s3cret")` on the
empty store and resolving the returned bearer token yields a user with the
registered email. -/
theorem register_then_resolve_witness :
    match register dbEmpty "Ana" "ana@example.com" "s3cret" salt16 tok32 (fun n => n) with
    | (.ok resp, db2) =>
        resp.user.email = "ana@example.com" ∧
        (match get_current_user db2 (some ("Bearer " ++ resp.token)) with
         | .ok u => u.email = "ana@example.com"
         | .error _ => False)
    | (.error _, _) => False :=
  register_then_resolve dbEmpty "Ana" "ana@example.com" "s3cret" salt16 tok32 (fun n => n)
    (by simp [dbEmpty]) (by simp [dbEmpty]) (by simp [dbEmpty])

/-! ## Lemmas about `popKey`, `setKey` and `isoVal` for idempotence -/

theorem popKey_fst_none {k : String} :
    ∀ {l : Doc}, (popKey k l).1 = none → k ∉ l.map Prod.fst := by
  intro l
  induction l with
  | nil => intro _; simp
  | cons kv rest ih =>
    obtain ⟨k1, v⟩ := kv
    intro h hm
    by_cases hk : k1 = k
    · rw [popKey, if_pos hk] at h
      cases h
    · rw [popKey, if_neg hk] at h
      rcases List.mem_cons.mp hm with h1 | h1
      · exact hk h1.symm
      · exact ih h h1

theorem popKey_of_not_mem {k : String} :
    ∀ {l : Doc}, k ∉ l.map Prod.fst → popKey k l = (none, l) := by
  intro l
  induction l with
  | nil => intro _; rfl
  | cons kv rest ih =>
    obtain ⟨k1, v⟩ := kv
    intro h
    have hk : ¬ k1 = k := by
      intro he
      exact h (by simp [he])
    have hrest : k ∉ rest.map Prod.fst := by
      intro hm
      exact h (by simp [hm])
    rw [popKey, if_neg hk, ih hrest]

theorem popKey_snd_not_mem {k : String} :
    ∀ {l : Doc}, (l.map Prod.fst).Nodup → k ∉ ((popKey k l).2.map Prod.fst) := by
  intro l
  induction l with
  | nil => intro _; simp [popKey]
  | cons kv rest ih =>
    obtain ⟨k1, v⟩ := kv
    intro hnd
    rw [List.map_cons, List.nodup_cons] at hnd
    by_cases hk : k1 = k
    · rw [popKey, if_pos hk]
      subst hk
      exact hnd.1
    · rw [popKey, if_neg hk]
      intro hm
      rcases List.mem_cons.mp hm with h1 | h1
      · exact hk h1.symm
      · exact ih hnd.2 h1

theorem setKey_not_mem {j k : String} (hjk : j ≠ k) (v : BVal) :
    ∀ {l : Doc}, j ∉ l.map Prod.fst → j ∉ (setKey k v l).map Prod.fst := by
  intro l
  induction l with
  | nil =>
    intro _ hm
    rcases List.mem_cons.mp hm with h1 | h1
    · exact hjk h1
    · simp at h1
  | cons kv rest ih =>
    obtain ⟨k1, v1⟩ := kv
    intro h hm
    by_cases hk : k1 = k
    · rw [setKey, if_pos hk] at hm
      rcases List.mem_cons.mp hm with h1 | h1
      · exact hjk h1
      · exact h (by simp [h1])
    · rw [setKey, if_neg hk] at hm
      rcases List.mem_cons.mp hm with h1 | h1
      · exact h (by simp [h1])
      · exact ih (fun hm2 => h (by simp [hm2])) h1

theorem isoVal_ne_vDt (v : BVal) (t : Int) : isoVal v ≠ BVal.vDt t := by
  cases v <;> simp [isoVal]

theorem isoVal_eq_self {v : BVal} (h : ∀ t, v ≠ BVal.vDt t) : isoVal v = v := by
  cases v with
  | vDt t => exact absurd rfl (h t)
  | vOid n => rfl
  | vStr s => rfl
  | vInt n => rfl
  | vNull => rfl

theorem map_isoVal_id {l : Doc} (h : ∀ kv ∈ l, ∀ t, kv.2 ≠ BVal.vDt t) :
    l.map (fun kv => (kv.1, isoVal kv.2)) = l := by
  have : ∀ kv ∈ l, (fun kv : String × BVal => (kv.1, isoVal kv.2)) kv = id kv := by
    intro kv hm
    simp only [id]
    rw [isoVal_eq_self (h kv hm)]
  rw [List.map_congr_left this, List.map_id]

/-- `serialize_doc` is the identity on a document that carries no `_id` key
and no `datetime` value (an already-serialized document). -/
theorem serialize_doc_no_op {d : Doc}
    (hid : "_id" ∉ d.map Prod.fst)
    (hdt : ∀ kv ∈ d, ∀ t, kv.2 ≠ BVal.vDt t) :
    serialize_doc d = d := by
  by_cases h0 : d = []
  · subst h0; rfl
  · unfold serialize_doc
    rw [if_neg h0, popKey_of_not_mem hid]
    exact map_isoVal_id hdt

/-- **C5.** `serialize_doc` is idempotent on any document with distinct keys
(the Python-dict invariant): after one pass, `_id` is gone (re-keyed as the
string field `id`) and no `datetime` values remain, so a second pass changes
nothing. Purity and non-mutation hold by construction of the embedding: the
source copies its argument (`d = dict(doc)`) and touches nothing else. -/
theorem serialize_doc_idempotent (doc : Doc) (h : (doc.map Prod.fst).Nodup) :
    serialize_doc (serialize_doc doc) = serialize_doc doc := by
  by_cases h0 : doc = []
  · subst h0; rfl
  · have hform : serialize_doc doc =
        (match (popKey "_id" doc).1 with
          | some v => setKey "id" (.vStr (pyStr v)) (popKey "_id" doc).2
          | none => doc).map (fun kv : String × BVal => (kv.1, isoVal kv.2)) := by
      unfold serialize_doc
      rw [if_neg h0]
    have hid : "_id" ∉ (serialize_doc doc).map Prod.fst := by
      rw [hform]
      intro hm
      rw [List.map_map] at hm
      obtain ⟨kv, hkv, hfst⟩ := List.mem_map.mp hm
      have hm2 : "_id" ∈ (match (popKey "_id" doc).1 with
          | some v => setKey "id" (.vStr (pyStr v)) (popKey "_id" doc).2
          | none => doc).map Prod.fst := by
        exact List.mem_map.mpr ⟨kv, hkv, hfst⟩
      revert hm2
      cases hp : (popKey "_id" doc).1 with
      | some v =>
        simp only
        exact setKey_not_mem (by decide) _ (popKey_snd_not_mem h)
      | none =>
        simp only
        exact popKey_fst_none hp
    have hdt : ∀ kv ∈ serialize_doc doc, ∀ t, kv.2 ≠ BVal.vDt t := by
      rw [hform]
      intro kv hm t
      obtain ⟨kv0, _, hkv0⟩ := List.mem_map.mp hm
      rw [← hkv0]
      exact isoVal_ne_vDt kv0.2 t
    exact serialize_doc_no_op hid hdt

/-- Witness for C5: idempotence on a concrete Mongo-shaped record with an
`ObjectId` and a `datetime` field. -/
theorem serialize_doc_idempotent_witness :
    serialize_doc (serialize_doc
        [("_id", .vOid 5), ("created_at", .vDt 77), ("name", .vStr "x")]) =
      serialize_doc [("_id", .vOid 5), ("created_at", .vDt 77), ("name", .vStr "x")] :=
  serialize_doc_idempotent _ (by decide)

/-! ## Hex-encoding lemmas for the salt (C6) -/

theorem hexChar_inj_lt : ∀ m < 16, ∀ n < 16, hexChar m = hexChar n → m = n := by decide

theorem byteHex_inj {b1 b2 : Nat} (h1 : b1 < 256) (h2 : b2 < 256)
    (he : byteHex b1 = byteHex b2) : b1 = b2 := by
  simp only [byteHex, List.cons.injEq, and_true] at he
  have e1 := hexChar_inj_lt (b1 / 16) (by omega) (b2 / 16) (by omega) he.1
  have e2 := hexChar_inj_lt (b1 % 16) (by omega) (b2 % 16) (by omega) he.2
  omega

theorem token_hex_flatten_length : ∀ f : List Nat, ((f.map byteHex).flatten).length = 2 * f.length := by
  intro f
  induction f with
  | nil => rfl
  | cons b r ih =>
    rw [List.map_cons, List.flatten_cons, List.length_append, ih]
    simp [byteHex]
    omega

theorem token_hex_length (f : List Nat) : (token_hex f).length = 2 * f.length :=
  token_hex_flatten_length f

theorem token_hex_inj : ∀ f1 f2 : List Nat, (∀ b ∈ f1, b < 256) → (∀ b ∈ f2, b < 256) →
    token_hex f1 = token_hex f2 → f1 = f2 := by
  intro f1
  induction f1 with
  | nil =>
    intro f2 _ _ h
    cases f2 with
    | nil => rfl
    | cons b r =>
      exfalso
      have hl := congrArg String.length h
      rw [token_hex_length, token_hex_length] at hl
      simp at hl
  | cons b1 r1 ih =>
    intro f2 hv1 hv2 h
    cases f2 with
    | nil =>
      exfalso
      have hl := congrArg String.length h
      rw [token_hex_length, token_hex_length] at hl
      simp at hl
    | cons b2 r2 =>
      unfold token_hex at h
      injection h with hd
      rw [List.map_cons, List.map_cons, List.flatten_cons, List.flatten_cons] at hd
      obtain ⟨hh, ht⟩ := List.append_inj hd (by simp [byteHex])
      have e1 : b1 = b2 := byteHex_inj (hv1 b1 (by simp)) (hv2 b2 (by simp)) hh
      have e2 : r1 = r2 := by
        refine ih r2 (fun b hb => hv1 b (by simp [hb])) (fun b hb => hv2 b (by simp [hb])) ?_
        unfold token_hex
        exact congrArg String.mk ht
      rw [e1, e2]

/-- **C6.** `hash_password` with an explicit (non-falsy) salt is
deterministic — the fresh-randomness argument is ignored, two calls agree —
and its digest is exactly the hex SHA-256 of `salt ++ password` (salt
prepended to the password). With no salt supplied it returns a salt that is
the hex of the 16 freshly drawn random bytes — 32 hex characters, i.e. 128
bits — and two calls whose random draws differ return different salts (hex
encoding loses no entropy: it is injective on byte lists). -/
theorem hash_password_deterministic (password s : String) (f1 f2 : List Nat)
    (hs : s ≠ "") (hlen : f1.length = 16)
    (hv1 : ∀ b ∈ f1, b < 256) (hv2 : ∀ b ∈ f2, b < 256) (hne : f1 ≠ f2) :
    hash_password password (some s) f1 = hash_password password (some s) f2 ∧
    (hash_password password (some s) f1).1 = sha256hex (s ++ password) ∧
    (hash_password password none f1).2 = token_hex f1 ∧
    ((hash_password password none f1).2).length = 32 ∧
    (hash_password password none f1).2 ≠ (hash_password password none f2).2 := by
  refine ⟨by simp [hash_password, hs], by simp [hash_password, hs], rfl, ?_, ?_⟩
  · show (token_hex f1).length = 32
    rw [token_hex_length, hlen]
  · show token_hex f1 ≠ token_hex f2
    intro h
    exact hne (token_hex_inj f1 f2 hv1 hv2 h)

/-- Witness for C6 at concrete inputs: salt `"ss"`, password `"pw"`, and two
distinct 16-byte random draws. -/
theorem hash_password_deterministic_witness :
    hash_password "pw" (some "ss") salt16 = hash_password "pw" (some "ss") (List.replicate 16 255) ∧
    (hash_password "pw" (some "ss") salt16).1 = sha256hex ("ss" ++ "pw") ∧
    (hash_password "pw" none salt16).2 = token_hex salt16 ∧
    ((hash_password "pw" none salt16).2).length = 32 ∧
    (hash_password "pw" none salt16).2 ≠ (hash_password "pw" none (List.replicate 16 255)).2 :=
  hash_password_deterministic "pw" "ss" salt16 (List.replicate 16 255)
    (by decide) (by decide) (by decide) (by decide) (by decide)

/-! ## Base64url lemmas for the session token (C8) -/

/-- The URL-safe base64 alphabet. -/
def b64urlAlphabet : List Char :=
  "ABCDEFGHIJKLMNOPQRSTUVWXYZabcdefghijklmnopqrstuvwxyz0123456789-_".data

theorem b64urlChar_inj_lt : ∀ m < 64, ∀ n < 64, b64urlChar m = b64urlChar n → m = n := by
  decide

theorem b64urlChar_mem_lt : ∀ n < 64, b64urlChar n ∈ b64urlAlphabet := by decide

theorem b64urlEncode_mem :
    ∀ bs : List Nat, (∀ b ∈ bs, b < 256) → ∀ c ∈ b64urlEncode bs, c ∈ b64urlAlphabet
  | b1 :: b2 :: b3 :: rest => by
    intro hv c hc
    have h1 : b1 < 256 := hv b1 (by simp)
    have h2 : b2 < 256 := hv b2 (by simp)
    have h3 : b3 < 256 := hv b3 (by simp)
    simp only [b64urlEncode, List.mem_cons] at hc
    rcases hc with h | h | h | h | h
    · subst h; exact b64urlChar_mem_lt _ (by omega)
    · subst h; exact b64urlChar_mem_lt _ (by omega)
    · subst h; exact b64urlChar_mem_lt _ (by omega)
    · subst h; exact b64urlChar_mem_lt _ (by omega)
    · exact b64urlEncode_mem rest (fun b hb => hv b (by simp [hb])) c h
  | [b1, b2] => by
    intro hv c hc
    have h1 : b1 < 256 := hv b1 (by simp)
    have h2 : b2 < 256 := hv b2 (by simp)
    simp only [b64urlEncode, List.mem_cons, List.not_mem_nil, or_false] at hc
    rcases hc with h | h | h
    · subst h; exact b64urlChar_mem_lt _ (by omega)
    · subst h; exact b64urlChar_mem_lt _ (by omega)
    · subst h; exact b64urlChar_mem_lt _ (by omega)
  | [b1] => by
    intro hv c hc
    have h1 : b1 < 256 := hv b1 (by simp)
    simp only [b64urlEncode, List.mem_cons, List.not_mem_nil, or_false] at hc
    rcases hc with h | h
    · subst h; exact b64urlChar_mem_lt _ (by omega)
    · subst h; exact b64urlChar_mem_lt _ (by omega)
  | [] => by
    intro _ c hc
    simp [b64urlEncode] at hc

theorem b64urlEncode_length :
    ∀ bs : List Nat, (b64urlEncode bs).length =
      4 * (bs.length / 3) + (if bs.length % 3 = 0 then 0 else bs.length % 3 + 1)
  | [] => rfl
  | [b1] => by simp [b64urlEncode]
  | [b1, b2] => by simp [b64urlEncode]
  | b1 :: b2 :: b3 :: rest => by
    have hstep : (b64urlEncode (b1 :: b2 :: b3 :: rest)).length =
        4 + (b64urlEncode rest).length := by
      simp only [b64urlEncode, List.length_cons]
      omega
    rw [hstep, b64urlEncode_length rest]
    simp only [List.length_cons]
    have h3 : rest.length + 1 + 1 + 1 = rest.length + 3 := by omega
    rw [h3, Nat.add_mod_right, Nat.add_div_right _ (by omega)]
    by_cases hP : rest.length % 3 = 0 <;> simp [hP] <;> omega

theorem b64urlEncode_inj :
    ∀ a b : List Nat, a.length = b.length → (∀ x ∈ a, x < 256) → (∀ x ∈ b, x < 256) →
      b64urlEncode a = b64urlEncode b → a = b
  | a1 :: a2 :: a3 :: arest => by
    intro b hl hva hvb he
    match b with
    | [] => simp at hl
    | [b1] => simp at hl
    | [b1, b2] => simp at hl
    | b1 :: b2 :: b3 :: brest =>
      have ha1 : a1 < 256 := hva a1 (by simp)
      have ha2 : a2 < 256 := hva a2 (by simp)
      have ha3 : a3 < 256 := hva a3 (by simp)
      have hb1 : b1 < 256 := hvb b1 (by simp)
      have hb2 : b2 < 256 := hvb b2 (by simp)
      have hb3 : b3 < 256 := hvb b3 (by simp)
      simp only [b64urlEncode, List.cons.injEq] at he
      obtain ⟨e1, e2, e3, e4, etail⟩ := he
      have n1 := b64urlChar_inj_lt _ (by omega) _ (by omega) e1
      have n2 := b64urlChar_inj_lt _ (by omega) _ (by omega) e2
      have n3 := b64urlChar_inj_lt _ (by omega) _ (by omega) e3
      have n4 := b64urlChar_inj_lt _ (by omega) _ (by omega) e4
      have hrest : arest = brest := by
        refine b64urlEncode_inj arest brest (by simp at hl; omega)
          (fun x hx => hva x (by simp [hx])) (fun x hx => hvb x (by simp [hx])) etail
      have : a1 = b1 ∧ a2 = b2 ∧ a3 = b3 := by omega
      simp [this.1, this.2.1, this.2.2, hrest]
  | [a1, a2] => by
    intro b hl hva hvb he
    match b with
    | [] => simp at hl
    | [b1] => simp at hl
    | b1 :: b2 :: b3 :: brest => simp at hl
    | [b1, b2] =>
      have ha1 : a1 < 256 := hva a1 (by simp)
      have ha2 : a2 < 256 := hva a2 (by simp)
      have hb1 : b1 < 256 := hvb b1 (by simp)
      have hb2 : b2 < 256 := hvb b2 (by simp)
      simp only [b64urlEncode, List.cons.injEq, and_true] at he
      obtain ⟨e1, e2, e3⟩ := he
      have n1 := b64urlChar_inj_lt _ (by omega) _ (by omega) e1
      have n2 := b64urlChar_inj_lt _ (by omega) _ (by omega) e2
      have n3 := b64urlChar_inj_lt _ (by omega) _ (by omega) e3
      have : a1 = b1 ∧ a2 = b2 := by omega
      simp [this.1, this.2]
  | [a1] => by
    intro b hl hva hvb he
    match b with
    | [] => simp at hl
    | [b1, b2] => simp at hl
    | b1 :: b2 :: b3 :: brest => simp at hl
    | [b1] =>
      have ha1 : a1 < 256 := hva a1 (by simp)
      have hb1 : b1 < 256 := hvb b1 (by simp)
      simp only [b64urlEncode, List.cons.injEq, and_true] at he
      obtain ⟨e1, e2⟩ := he
      have n1 := b64urlChar_inj_lt _ (by omega) _ (by omega) e1
      have n2 := b64urlChar_inj_lt _ (by omega) _ (by omega) e2
      have : a1 = b1 := by omega
      simp [this]
  | [] => by
    intro b hl _ _ _
    match b with
    | [] => rfl
    | b1 :: bt => simp at hl

/-- **C8** (counterexample to the claim as stated). `register` reads the
clock separately for the session's `created_at` (its third `utcnow()` call)
and for `expires_at` (its fourth call, plus 7 days). Under a clock that
advances one unit per read — `clock n = n` — the single persisted session
has `created_at = 2` but `expires_at = 3 + days 7`, which is not its
creation timestamp plus exactly 7 days. -/
theorem session_expiry_clock_skew_cex :
    ((register dbEmpty "Ana" "ana@example.com" "s3cret" salt16 tok32
        (fun n => (n : Int))).2).sessions =
      [⟨"0", token_urlsafe tok32, 2, 3 + days 7⟩] ∧
    ¬ ((⟨"0", token_urlsafe tok32, 2, 3 + days 7⟩ : SessionDoc).expires_at =
        (⟨"0", token_urlsafe tok32, 2, 3 + days 7⟩ : SessionDoc).created_at + days 7) := by
  constructor
  · rw [register_fresh_eq dbEmpty "Ana" "ana@example.com" "s3cret" salt16 tok32 _ (by rfl)]
    decide
  · decide

/-- **C8** (amended). A successful `register` (fresh email) persists exactly
one new Session record whose `user_id` is the string form of the owning
user's store-assigned identifier and whose token is the base64url encoding
of the 32 freshly drawn random bytes — 43 characters, all URL-safe, with the
full 256 bits of entropy preserved (the encoding is injective). Its
`created_at` is the handler's third clock reading and `expires_at` is the
*fourth* clock reading plus exactly 7 days, which equals
`created_at + 7 days` exactly when the clock does not advance between the
two reads. A successful `login` behaves the same with its two clock
reads. -/
theorem session_record_shape (db : DB) (name email password : String) (u : UserDoc)
    (saltB tokB lf : List Nat) (clock : Nat → Int)
    (hv : ∀ b ∈ tokB, b < 256) (hlen : tokB.length = 32) :
    ((∀ x ∈ db.users, x.email ≠ email) →
      (register db name email password saltB tokB clock).2.sessions =
        db.sessions ++
          [⟨toString db.nextId, token_urlsafe tokB, clock 2, clock 3 + days 7⟩]) ∧
    (findUserByEmail db email = some u →
      u.password_salt ≠ "" →
      sha256hex (u.password_salt ++ password) = u.password_hash →
      (login db email password lf tokB clock).2.sessions =
        db.sessions ++
          [⟨toString u.id, token_urlsafe tokB, clock 0, clock 1 + days 7⟩]) ∧
    (∀ uid : String, ∀ t1 t2 : Int, t1 = t2 →
      (⟨uid, token_urlsafe tokB, t1, t2 + days 7⟩ : SessionDoc).expires_at =
        (⟨uid, token_urlsafe tokB, t1, t2 + days 7⟩ : SessionDoc).created_at + days 7) ∧
    (∀ c ∈ (token_urlsafe tokB).data, c ∈ b64urlAlphabet) ∧
    (token_urlsafe tokB).length = 43 ∧
    (∀ tokB2 : List Nat, tokB2.length = tokB.length → (∀ b ∈ tokB2, b < 256) →
      tokB ≠ tokB2 → token_urlsafe tokB ≠ token_urlsafe tokB2) := by
  refine ⟨?_, ?_, ?_, ?_, ?_, ?_⟩
  · intro h1
    have hf : findUserByEmail db email = none :=
      List.find?_eq_none.mpr fun x hx => by simp [h1 x hx]
    rw [register_fresh_eq db name email password saltB tokB clock hf]
  · intro hf hs hh
    unfold login
    rw [hf]
    simp only [hash_password, if_neg hs, hh, ne_eq, not_true_eq_false, if_false]
  · intro uid t1 t2 ht
    simp [ht]
  · exact fun c hc => b64urlEncode_mem tokB hv c hc
  · show (b64urlEncode tokB).length = 43
    rw [b64urlEncode_length, hlen]
    decide
  · intro tokB2 hlen2 hv2 hne h
    unfold token_urlsafe at h
    injection h with hd
    exact hne (b64urlEncode_inj tokB tokB2 hlen2.symm hv hv2 hd)

/-- Witness for C8 (amended), with a clock frozen at 100: the one new
session's expiry is its creation plus exactly 7 days, and the token has 43
URL-safe characters. -/
theorem session_record_shape_witness :
    (register dbEmpty "Ana" "ana@example.com" "s3cret" salt16 tok32
        (fun _ => 100)).2.sessions =
      [⟨"0", token_urlsafe tok32, 100, 100 + days 7⟩] ∧
    (⟨"w", token_urlsafe tok32, 100, 100 + days 7⟩ : SessionDoc).expires_at =
      (⟨"w", token_urlsafe tok32, 100, 100 + days 7⟩ : SessionDoc).created_at + days 7 ∧
    (token_urlsafe tok32).length = 43 := by
  obtain ⟨h1, h2, h3, h4, h5, h6⟩ :=
    session_record_shape dbEmpty "Ana" "ana@example.com" "s3cret" exUser salt16 tok32 []
      (fun _ => 100) (by decide) (by decide)
  exact ⟨(h1 (by simp [dbEmpty])).trans (by decide), h3 "w" 100 100 rfl, h5⟩

/-- **C9.** The user projection of every success response is exactly
`toPublic` of a stored user record: identifier as a string, name, email,
optional avatar reference. `toPublic` (the `UserPublic` schema) carries no
other field, and in particular is invariant under the stored password hash
and salt — they are never serialized outward. -/
theorem responses_expose_only_public_projection (db : DB) (name email password : String)
    (saltB tokB lf : List Nat) (clock : Nat → Int) :
    (∀ resp db2, register db name email password saltB tokB clock = (.ok resp, db2) →
      ∃ u ∈ db2.users, resp.user = toPublic u) ∧
    (∀ resp db2, login db email password lf tokB clock = (.ok resp, db2) →
      ∃ u ∈ db.users, resp.user = toPublic u) ∧
    (∀ auth pub, me db auth = .ok pub →
      ∃ u, get_current_user db auth = .ok u ∧ pub = toPublic u) ∧
    (∀ u : UserDoc, ∀ h s : String,
      toPublic { u with password_hash := h, password_salt := s } = toPublic u) := by
  refine ⟨?_, ?_, ?_, fun u h s => rfl⟩
  · intro resp db2 h
    cases hf : findUserByEmail db email with
    | some v =>
      unfold register at h
      rw [hf] at h
      cases h
    | none =>
      rw [register_fresh_eq db name email password saltB tokB clock hf] at h
      injection h with h1 h2
      injection h1 with h1
      subst h1
      subst h2
      exact ⟨⟨db.nextId, name, email, (hash_password password none saltB).1,
        (hash_password password none saltB).2, none, clock 0, clock 1⟩,
        List.mem_append.mpr (Or.inr (by simp)), rfl⟩
  · intro resp db2 h
    cases hf : findUserByEmail db email with
    | some v =>
      unfold login at h
      rw [hf] at h
      by_cases hd : (hash_password password (some v.password_salt) lf).1 = v.password_hash
      · simp only [hd, ne_eq, not_true_eq_false, if_false] at h
        injection h with h1 h2
        injection h1 with h1
        subst h1
        exact ⟨v, List.mem_of_find?_eq_some hf, rfl⟩
      · simp only [ne_eq, hd, not_false_eq_true, if_true] at h
        cases h
    | none =>
      unfold login at h
      rw [hf] at h
      cases h
  · intro auth pub h
    unfold me at h
    cases hg : get_current_user db auth with
    | error e => rw [hg] at h; cases h
    | ok u =>
      rw [hg] at h
      cases h
      exact ⟨u, rfl, rfl⟩

/-- Witness for C9: resolving `exUser`'s session via `/auth/me` yields
exactly the public projection of the stored record, and the projection is
unchanged when the stored hash and salt are replaced. -/
theorem responses_expose_only_public_projection_witness :
    get_current_user dbWithSession (some "Bearer tok") = .ok exUser ∧
    (⟨"0", "Ana", "ana@example.com", none⟩ : UserPublic) = toPublic exUser ∧
    toPublic { exUser with password_hash := "other", password_salt := "zz" } = toPublic exUser := by
  obtain ⟨-, -, hme, hproj⟩ :=
    responses_expose_only_public_projection dbWithSession "x" "y" "z" [] [] [] (fun _ => 0)
  obtain ⟨u, hu, hp⟩ := hme (some "Bearer tok") ⟨"0", "Ana", "ana@example.com", none⟩ (by rfl)
  have he : u = exUser := by
    have h2 := hu.symm.trans (by rfl : get_current_user dbWithSession (some "Bearer tok") = .ok exUser)
    injection h2
  subst he
  exact ⟨hu, hp, hproj exUser "other" "zz"⟩
